import Mathlib

/-!
Shallow embedding of the elbe remote build-control client
(`elbepack/soapclient.py`, `elbepack/pbuilderaction.py`).

Bytes are modelled as `Nat` values below 256, byte strings as `List Nat`,
and character strings as `List Char`.  Remote calls are modelled by
passing in the sequence of replies the server produces; the client code
is translated statement by statement from the source.
-/

/-- Fixed transfer block size used by `_upload_file`, `download_file` and
`set_xml`: `size = 1024 * 1024` bytes. -/
def size : Nat := 1024 * 1024

/-- The base64 alphabet, as used by `binascii.b2a_base64`. -/
def b64chars : List Char :=
  ['A', 'B', 'C', 'D', 'E', 'F', 'G', 'H', 'I', 'J', 'K', 'L', 'M',
   'N', 'O', 'P', 'Q', 'R', 'S', 'T', 'U', 'V', 'W', 'X', 'Y', 'Z',
   'a', 'b', 'c', 'd', 'e', 'f', 'g', 'h', 'i', 'j', 'k', 'l', 'm',
   'n', 'o', 'p', 'q', 'r', 's', 't', 'u', 'v', 'w', 'x', 'y', 'z',
   '0', '1', '2', '3', '4', '5', '6', '7', '8', '9', '+', '/']

/-- Character for a 6-bit value. -/
def sextetToChar (s : Nat) : Char := b64chars.getD s 'A'

/-- Inverse alphabet lookup; `none` for padding, newlines and any other
non-alphabet character (`binascii.a2b_base64` ignores those). -/
def charToSextet (c : Char) : Option Nat := b64chars.findIdx? (fun d => d == c)

/-- Base64 groups of an input byte string, with `=` padding. -/
def encodeGroups : List Nat → List Char
  | [] => []
  | [a] => [sextetToChar (a / 4), sextetToChar (a % 4 * 16), '=', '=']
  | [a, b] => [sextetToChar (a / 4), sextetToChar (a % 4 * 16 + b / 16),
               sextetToChar (b % 16 * 4), '=']
  | a :: b :: c :: rest =>
      sextetToChar (a / 4) :: sextetToChar (a % 4 * 16 + b / 16) ::
      sextetToChar (b % 16 * 4 + c / 64) :: sextetToChar (c % 64) :: encodeGroups rest

/-- Model of `binascii.b2a_base64`: base64 of the data plus a trailing
newline. -/
def b2a_base64 (bs : List Nat) : List Char := encodeGroups bs ++ ['\n']

/-- Decode a stream of 6-bit values back into bytes (trailing groups of
two or three sextets produced by padding yield one or two bytes). -/
def decodeSextets : List Nat → List Nat
  | s0 :: s1 :: s2 :: s3 :: rest =>
      (s0 * 4 + s1 / 16) :: (s1 % 16 * 16 + s2 / 4) :: (s2 % 4 * 64 + s3) ::
      decodeSextets rest
  | [s0, s1] => [s0 * 4 + s1 / 16]
  | [s0, s1, s2] => [s0 * 4 + s1 / 16, s1 % 16 * 16 + s2 / 4]
  | _ => []

/-- Model of `binascii.a2b_base64`: drop non-alphabet characters
(padding, newline) and decode the sextets. -/
def a2b_base64 (cs : List Char) : List Nat := decodeSextets (cs.filterMap charToSextet)

/-- The terminal reply of `get_file`, compared against `ret == 'EndOfFile'`
in `download_file`. -/
def eofStr : List Char := ['E', 'n', 'd', 'O', 'f', 'F', 'i', 'l', 'e']

/-- One reply of the remote `get_file` call: either a payload string or a
`BadStatusLine` protocol error raised by the transport. -/
inductive GetFileResp where
  | ok (s : List Char)
  | badStatusLine
deriving DecidableEq

/-- How a `download_file` run ends. -/
inductive DlOutcome where
  /-- `EndOfFile` received: file closed, normal return. -/
  | done
  /-- Retry budget exhausted: file closed, `sys.exit(170)`. -/
  | exit170
  /-- `ret` read before any assignment (first request failed): `NameError`. -/
  | nameError
  /-- The supplied reply list ran out while the loop still wanted a reply. -/
  | hung
deriving DecidableEq

/-- Observable result of a `download_file` run: the chunk indices requested,
the decoded chunks written to the destination file in order, the number of
`BadStatusLine` errors consumed, whether the file object was closed, and the
outcome. -/
structure DownloadRes where
  requests : List Nat
  written : List (List Nat)
  errorsSeen : Nat
  closed : Bool
  outcome : DlOutcome
deriving DecidableEq

/-- Loop body of `ElbeSoapClient.download_file`, translated statement by
statement.  `part` and `retry` are the loop variables; `ret` holds the
Python local of the same name (`none` before its first assignment).  Note
the source's `except BadStatusLine` handler does not `continue`: when the
budget is not yet exhausted control falls through to the `if ret == ...`
test with the previous value of `ret`. -/
def downloadGo : List GetFileResp → Nat → Nat → Option (List Char) → DownloadRes
  | [], part, _, _ => ⟨[part], [], 0, false, .hung⟩
  | .ok s :: rest, part, retry, _ =>
      if s = eofStr then ⟨[part], [], 0, true, .done⟩
      else
        let n := downloadGo rest (part + 1) retry (some s)
        ⟨part :: n.requests, a2b_base64 s :: n.written, n.errorsSeen, n.closed, n.outcome⟩
  | .badStatusLine :: rest, part, retry, ret =>
      if retry - 1 = 0 then ⟨[part], [], 1, true, .exit170⟩
      else
        match ret with
        | none => ⟨[part], [], 1, false, .nameError⟩
        | some s =>
            if s = eofStr then ⟨[part], [], 1, true, .done⟩
            else
              let n := downloadGo rest (part + 1) (retry - 1) (some s)
              ⟨part :: n.requests, a2b_base64 s :: n.written, n.errorsSeen + 1, n.closed, n.outcome⟩

/-- `ElbeSoapClient.download_file`: starts at part 0 with a retry budget
of 5 and an unassigned `ret`. -/
def download_file (resps : List GetFileResp) : DownloadRes :=
  downloadGo resps 0 5 none

/-- Read loop of `ElbeSoapClient._upload_file`, with the remaining file
content as argument: read up to `size` bytes, append the block, stop as
soon as a read returned fewer than `size` bytes.  The `fuel` argument is
only a bound on the file length making the recursion structural; it never
influences the result when `content.length ≤ fuel`. -/
def uploadGo : Nat → List Nat → List (List Nat)
  | 0, content => [content]
  | fuel + 1, content =>
      if content.length < size then [content]
      else content.take size :: uploadGo fuel (content.drop size)

/-- Blocks appended by one `_upload_file` run over a file with the given
content. -/
def uploadBlocks (content : List Nat) : List (List Nat) :=
  uploadGo content.length content

/-- Remote calls of a `set_orig` upload (`start_upload_orig`, one
`append_upload_orig` per block, `finish_upload_orig`). -/
inductive UploadEvent where
  | start
  | append (data : List Char)
  | finish
deriving DecidableEq

/-- Trace of `ElbeSoapClient.set_orig`: start, the `_upload_file` appends
(each carrying the base64-encoded block), then finish. -/
def setOrigTrace (content : List Nat) : List UploadEvent :=
  .start :: (uploadBlocks content).map (fun b => .append (b2a_base64 b)) ++ [.finish]

/-- Split a stored remote file into its successive `size`-byte chunks
(no trailing empty chunk).  Fuel-structured like `uploadGo`. -/
def chunksGo : Nat → List Nat → List (List Nat)
  | 0, _ => []
  | fuel + 1, content =>
      if content = [] then []
      else content.take size :: chunksGo fuel (content.drop size)

/-- Chunks of a stored remote file. -/
def chunksOf (content : List Nat) : List (List Nat) :=
  chunksGo content.length content

/-- Modelled from the spec: the remote `getFile` handler is not part of
the client sources; per the external-interface contract it serves the
stored file chunk-by-chunk by ascending index
(`getFile(handle, name, chunkIndex) → data|"end of file"`), each reply a
base64-encoded chunk of at most 1 MiB, and answers `EndOfFile` for the
first index past the end. -/
def serverResps (stored : List Nat) : List GetFileResp :=
  (chunksOf stored).map (fun b => .ok (b2a_base64 b)) ++ [.ok eofStr]

/-- Modelled from the spec: the remote side of the upload primitive
decodes every appended block and appends the bytes to the stored file, so
after a finished upload the stored file is the concatenation of the
decoded blocks. -/
def serverStored (content : List Nat) : List Nat :=
  ((uploadBlocks content).map (fun b => a2b_base64 (b2a_base64 b))).flatten

/-- One request of the acknowledged `set_xml` upload: the chunk index the
client sent (`-1` is the reserved final marker), the raw block read from
the file for this request, and the server's integer reply (`none` when the
modelled reply list ran out before an answer arrived). -/
structure XmlStep where
  sent : Int
  block : List Nat
  reply : Option Int
deriving DecidableEq

/-- How a `set_xml` run ends. -/
inductive XmlOutcome where
  /-- Server replied `-2`: upload finished, normal return. -/
  | done
  /-- Server replied `-1`: `RuntimeError('project busy, upload not allowed')`. -/
  | busyReject
  /-- The supplied reply list ran out while the loop still wanted a reply. -/
  | hung
  /-- The document has no `<target>` element: `ValueError` before any request. -/
  | noTarget
deriving DecidableEq

/-- The block `fp.read(size)` returns at file position `pos`. -/
def xmlBlock (content : List Nat) (pos : Nat) : List Nat :=
  (content.drop pos).take size

/-- The index `set_xml` sends for the block at `pos` when the granted
index is `part`: the reserved final marker `-1` if the encoded block is
the bare newline (`len(xml_base64) == 1`, i.e. the read was empty), the
granted index otherwise. -/
def xmlSent (content : List Nat) (pos : Nat) (part : Int) : Int :=
  if (b2a_base64 (xmlBlock content pos)).length = 1 then -1 else part

/-- Upload loop of `ElbeSoapClient.set_xml`: send the block at `pos` with
index `xmlSent`; the server's reply becomes the next `part`, `-1` aborts
with `RuntimeError`, `-2` returns. -/
def setXmlGo (content : List Nat) : List Int → Nat → Int → List XmlStep × XmlOutcome
  | [], pos, part =>
      ([⟨xmlSent content pos part, xmlBlock content pos, none⟩], .hung)
  | r :: rest, pos, part =>
      if r = -1 then ([⟨xmlSent content pos part, xmlBlock content pos, some r⟩], .busyReject)
      else if r = -2 then ([⟨xmlSent content pos part, xmlBlock content pos, some r⟩], .done)
      else
        let n := setXmlGo content rest (pos + size) r
        (⟨xmlSent content pos part, xmlBlock content pos, some r⟩ :: n.1, n.2)

/-- `ElbeSoapClient.set_xml`.  Modelled from the spec: the configuration
document parser (`ElbeXML`) is an external collaborator not in the client
sources; the only fact `set_xml` consumes is whether the document has a
`<target>` element, passed here as `hasTarget`.  Without a `<target>` the
call raises `ValueError` before opening the file or issuing any request;
otherwise the upload loop starts at position 0 with granted index 0. -/
def set_xml (hasTarget : Bool) (content : List Nat) (replies : List Int) :
    List XmlStep × XmlOutcome :=
  if hasTarget then setXmlGo content replies 0 0
  else ([], .noTarget)

/-- One poll result of `get_project_busy`: either a `socket.error` raised
by the transport or a message string (the empty string for "no news"). -/
inductive BusyPoll where
  | sockErr
  | msg (s : String)
deriving DecidableEq

/-- Observable actions of a `wait_busy` run. -/
inductive BusyEvent where
  /-- One `get_project_busy` call. -/
  | poll
  /-- `_logger.warn(...)` after a socket error, before retrying. -/
  | logRetry
  /-- `time.sleep(0.1)` after an empty message (milliseconds recorded). -/
  | sleepMs (n : Nat)
  /-- A progress message yielded to the consumer. -/
  | yielded (s : String)
  /-- The final authoritative `get_project` status call. -/
  | getProject
deriving DecidableEq

/-- How a `wait_busy` run ends. -/
inductive BusyOutcome where
  /-- Busy stream ended on the sentinel and final status was `build_done`. -/
  | ok
  /-- `CliError(code, ...)` raised after the final status check. -/
  | cliError (code : Nat)
  /-- The supplied poll list ran out while the loop was still polling. -/
  | hung
deriving DecidableEq

/-- Poll loop of `ElbeSoapClient.wait_busy`: socket errors are logged and
retried, empty messages sleep 100 ms and poll again, the sentinel
`ELBE-FINISH` breaks the loop, anything else is yielded.  Returns the
event trace, the yielded messages in order, and whether the loop broke on
the sentinel. -/
def waitBusyGo : List BusyPoll → List BusyEvent × List String × Bool
  | [] => ([], [], false)
  | .sockErr :: rest =>
      let n := waitBusyGo rest
      (.poll :: .logRetry :: n.1, n.2.1, n.2.2)
  | .msg s :: rest =>
      if s = "" then
        let n := waitBusyGo rest
        (.poll :: .sleepMs 100 :: n.1, n.2.1, n.2.2)
      else if s = "ELBE-FINISH" then ([.poll], [], true)
      else
        let n := waitBusyGo rest
        (.poll :: .yielded s :: n.1, s :: n.2.1, n.2.2)

/-- `ElbeSoapClient.wait_busy`: after the poll loop breaks on the
sentinel, one `get_project` call fetches the final status and a status
other than `build_done` raises `CliError(191, ...)`. -/
def wait_busy (polls : List BusyPoll) (finalStatus : String) :
    List BusyEvent × List String × BusyOutcome :=
  let n := waitBusyGo polls
  if n.2.2 then
    if finalStatus = "build_done" then (n.1 ++ [.getProject], n.2.1, .ok)
    else (n.1 ++ [.getProject], n.2.1, .cliError 191)
  else (n.1, n.2.1, .hung)

/-- Observable actions of a `connect` run. -/
inductive ConnEvent where
  /-- One attempt to construct the transport `Client`. -/
  | attempt
  /-- `time.sleep(1)` before retrying a failed attempt. -/
  | sleep1
  /-- The `get_version` call after a successful transport connection. -/
  | getVersion
  /-- The `login` call. -/
  | login
deriving DecidableEq

/-- Result of the transport retry loop of `connect`. -/
inductive ConnTransport where
  | success
  | raised
  /-- The supplied attempt list ran out while the loop was still trying. -/
  | outOfAttempts
deriving DecidableEq

/-- How a `connect` run ends. -/
inductive ConnOutcome where
  | connected
  /-- A network-class error was re-raised after the budget was exceeded. -/
  | raisedNetwork
  /-- `ElbeVersionMismatch` raised by the version check. -/
  | versionMismatch
  /-- The supplied attempt list ran out while the loop was still trying. -/
  | hung
deriving DecidableEq

/-- Transport retry loop of `ElbeSoapClient.connect`: `cur` is the value
of `current_retries` before the `current_retries += 1` of the next
iteration; each `false` attempt re-raises when `cur + 1 > retries` and
otherwise sleeps one second and retries. -/
def connectGo : List Bool → Nat → Nat → List ConnEvent × ConnTransport
  | [], _, _ => ([], .outOfAttempts)
  | true :: _, _, _ => ([.attempt], .success)
  | false :: rest, cur, retries =>
      if cur + 1 > retries then ([.attempt], .raised)
      else
        let n := connectGo rest (cur + 1) retries
        (.attempt :: .sleep1 :: n.1, n.2)

/-- `ElbeSoapClient.connect`: run the transport loop with
`current_retries = 0`; on transport success fetch the remote version,
compare via `ElbeVersionMismatch.check` (raising on inequality), and only
then call `login`. -/
def connect (attempts : List Bool) (retries : Nat) (clientV serverV : String) :
    List ConnEvent × ConnOutcome :=
  match connectGo attempts 0 retries with
  | (e, .success) =>
      if clientV ≠ serverV then (e ++ [.getVersion], .versionMismatch)
      else (e ++ [.getVersion, .login], .connected)
  | (e, .raised) => (e, .raisedNetwork)
  | (e, .outOfAttempts) => (e, .hung)

/-- The three `PBuilderAction` subclasses defined in
`elbepack/pbuilderaction.py`. -/
inductive ActionCls where
  | createA
  | updateA
  | buildA
deriving DecidableEq

/-- The `tag` class attribute of each subclass. -/
def tagOf : ActionCls → String
  | .createA => "create"
  | .updateA => "update"
  | .buildA => "build"

/-- Python dict assignment `cls.actiondict[action.tag] = action` on an
association list. -/
def dictInsert (d : List (String × ActionCls)) (k : String) (v : ActionCls) :
    List (String × ActionCls) :=
  if (d.lookup k).isSome then d.map (fun p => if p.1 = k then (k, v) else p)
  else d ++ [(k, v)]

/-- The three module-level `PBuilderAction.register(...)` calls, in source
order (lines 138, 170 and 318): the second one registers `CreateAction`
again, not `UpdateAction`. -/
def registeredActions : List ActionCls := [.createA, .createA, .buildA]

/-- The resulting `PBuilderAction.actiondict`. -/
def actiondict : List (String × ActionCls) :=
  registeredActions.foldl (fun d a => dictInsert d (tagOf a) a) []

/-- `PBuilderAction.__new__`: look the command name up in `actiondict`
(`none` models the `KeyError` for an unregistered name). -/
def pbuilderActionNew (node : String) : Option ActionCls :=
  actiondict.lookup node

/-- The `elbe control ...` subcommands invoked by the pbuilder pipelines,
plus the local tar step. -/
inductive CtlCmd where
  | createProject
  | setXmlCmd
  | buildPbuilder
  | waitBusy
  | updatePbuilder
  | rmLog
  | tarArchive
  | setOrig
  | setPdebuild
  | getFiles
  | dumpFile
deriving DecidableEq

/-- `UpdateAction.execute`: without a `--project` option exit 158; with
one, run `elbe control update_pbuilder` (exit 159 on failure) and return
without any wait step. -/
def updateExecute (project : Option String) (updateOk : Bool) :
    List CtlCmd × Option Nat :=
  match project with
  | none => ([], some 158)
  | some _ =>
      if updateOk then ([.updatePbuilder], none)
      else ([.updatePbuilder], some 159)

/-- Tail of `BuildAction.execute` from the `set_pdebuild` push onward:
`set_pdebuild` failure exits 166; `wait_busy` failure exits 167 (with no
further command); a `get_files` failure triggers a `dump_file log.txt`
attempt and exits 168 (when `--skip-download` was given) or 169, the
`dump_file` result only adding an error report (second component) without
changing the exit status. -/
def buildTail (pdebuildOk waitOk getFilesOk dumpOk skipDownload : Bool) :
    List CtlCmd × Bool × Option Nat :=
  if !pdebuildOk then ([.setPdebuild], false, some 166)
  else if !waitOk then ([.setPdebuild, .waitBusy], false, some 167)
  else if getFilesOk then ([.setPdebuild, .waitBusy, .getFiles], false, none)
  else ([.setPdebuild, .waitBusy, .getFiles, .dumpFile], !dumpOk,
        some (if skipDownload then 168 else 169))

/-- Progress messages extracted from one poll result as the consumer sees
them: socket errors and empty messages produce nothing. -/
def pollData : BusyPoll → Option String
  | .msg s => if s = "" then none else some s
  | .sockErr => none

/-- The polls the loop processes before breaking: everything up to (and
excluding) the first sentinel message. -/
def beforeSentinel : List BusyPoll → List BusyPoll
  | [] => []
  | p :: rest => if p = .msg "ELBE-FINISH" then [] else p :: beforeSentinel rest

theorem charToSextet_sextetToChar : ∀ s : Nat, s < 64 → charToSextet (sextetToChar s) = some s := by
  decide

theorem charToSextet_pad : charToSextet '=' = none := by decide

theorem charToSextet_newline : charToSextet '\n' = none := by decide

/-- Decoding the base64 groups of a byte string restores it. -/
theorem decodeSextets_encodeGroups (bs : List Nat) (h : ∀ x ∈ bs, x < 256) :
    decodeSextets ((encodeGroups bs).filterMap charToSextet) = bs := by
  induction bs using encodeGroups.induct with
  | case1 => simp [encodeGroups, decodeSextets]
  | case2 a =>
      have ha : a < 256 := h a (by simp)
      rw [encodeGroups]
      simp only [List.filterMap_cons,
        charToSextet_sextetToChar _ (by omega : a / 4 < 64),
        charToSextet_sextetToChar _ (by omega : a % 4 * 16 < 64),
        charToSextet_pad]
      simp only [List.filterMap_nil, decodeSextets]
      have : a / 4 * 4 + a % 4 * 16 / 16 = a := by omega
      rw [this]
  | case3 a b =>
      have ha : a < 256 := h a (by simp)
      have hb : b < 256 := h b (by simp)
      rw [encodeGroups]
      simp only [List.filterMap_cons,
        charToSextet_sextetToChar _ (by omega : a / 4 < 64),
        charToSextet_sextetToChar _ (by omega : a % 4 * 16 + b / 16 < 64),
        charToSextet_sextetToChar _ (by omega : b % 16 * 4 < 64),
        charToSextet_pad]
      simp only [List.filterMap_nil, decodeSextets]
      have h1 : a / 4 * 4 + (a % 4 * 16 + b / 16) / 16 = a := by omega
      have h2 : (a % 4 * 16 + b / 16) % 16 * 16 + b % 16 * 4 / 4 = b := by omega
      rw [h1, h2]
  | case4 a b c rest ih =>
      have ha : a < 256 := h a (by simp)
      have hb : b < 256 := h b (by simp)
      have hc : c < 256 := h c (by simp)
      rw [encodeGroups]
      simp only [List.filterMap_cons,
        charToSextet_sextetToChar _ (by omega : a / 4 < 64),
        charToSextet_sextetToChar _ (by omega : a % 4 * 16 + b / 16 < 64),
        charToSextet_sextetToChar _ (by omega : b % 16 * 4 + c / 64 < 64),
        charToSextet_sextetToChar _ (by omega : c % 64 < 64)]
      rw [decodeSextets]
      have h1 : a / 4 * 4 + (a % 4 * 16 + b / 16) / 16 = a := by omega
      have h2 : (a % 4 * 16 + b / 16) % 16 * 16 + (b % 16 * 4 + c / 64) / 4 = b := by omega
      have h3 : (b % 16 * 4 + c / 64) % 4 * 64 + c % 64 = c := by omega
      rw [h1, h2, h3, ih (fun x hx => h x (by simp [hx]))]

/-- Base64 round trip: `a2b_base64 (b2a_base64 bs) = bs` for byte input. -/
theorem a2b_b2a_base64 (bs : List Nat) (h : ∀ x ∈ bs, x < 256) :
    a2b_base64 (b2a_base64 bs) = bs := by
  unfold a2b_base64 b2a_base64
  rw [List.filterMap_append]
  simp only [List.filterMap_cons, charToSextet_newline, List.filterMap_nil, List.append_nil]
  exact decodeSextets_encodeGroups bs h

theorem encodeGroups_eq_nil (bs : List Nat) : encodeGroups bs = [] ↔ bs = [] := by
  match bs with
  | [] => simp [encodeGroups]
  | [a] => simp [encodeGroups]
  | [a, b] => simp [encodeGroups]
  | a :: b :: c :: rest => simp [encodeGroups]

/-- The encoded block has length 1 (the bare newline) exactly for an empty
read, the test `set_xml` uses to detect the end of the file. -/
theorem b2a_base64_length_one (bs : List Nat) : (b2a_base64 bs).length = 1 ↔ bs = [] := by
  unfold b2a_base64
  rw [List.length_append]
  simp [← encodeGroups_eq_nil bs, List.length_eq_zero]

/-- An encoded block always ends in a newline, so it is never the
`EndOfFile` sentinel string. -/
theorem b2a_base64_ne_eofStr (bs : List Nat) : b2a_base64 bs ≠ eofStr := by
  intro h
  have h1 : (b2a_base64 bs).getLast? = some '\n' := List.getLast?_concat _
  rw [h] at h1
  simp [eofStr, List.getLast?] at h1

/-- C10: a configuration document without a `<target>` element makes
`set_xml` raise a local `ValueError` before issuing any `upload_file`
request, leaving the remote project untouched. -/
theorem set_xml_no_target_is_local_error (content : List Nat) (replies : List Int) :
    set_xml false content replies = ([], .noTarget) := by
  simp [set_xml]

/-- C3: the module-level registration at line 170 registers `CreateAction`
a second time instead of `UpdateAction`, so constructing the action named
`update` fails with a `KeyError` even though `UpdateAction` carries the tag
`update` and its `execute` does implement the update pipeline (an
`update_pbuilder` request for an existing project, with no wait step);
`create` and `build` dispatch correctly. -/
theorem update_pipeline_not_dispatchable :
    pbuilderActionNew "update" = none ∧
    tagOf .updateA = "update" ∧
    pbuilderActionNew "create" = some .createA ∧
    pbuilderActionNew "build" = some .buildA ∧
    updateExecute (some "prj") true = ([.updatePbuilder], none) ∧
    CtlCmd.waitBusy ∉ (updateExecute (some "prj") true).1 := by
  decide

/-- C4 counterexample: at a concrete input where the wait-for-busy step
fails (every other step succeeding), the build pipeline issues no
`dump_file` log fetch at all — it exits directly with status 167. -/
theorem build_wait_failure_fetches_no_log :
    buildTail true false true true false = ([.setPdebuild, .waitBusy], false, some 167) ∧
    CtlCmd.dumpFile ∉ (buildTail true false true true false).1 := by
  decide

/-- C4 amended: the best-effort log fetch is attached to the get-files
step, not the wait step: a wait-for-busy failure exits with 167 and no
`dump_file` call, while a get-files failure triggers a `dump_file`
attempt and exits 168 (skip-download) or 169, the outcome of the
`dump_file` attempt being reported but never changing the exit status. -/
theorem build_log_fetch_on_get_files_failure
    (pdebuildOk waitOk getFilesOk dumpOk skip : Bool) :
    (pdebuildOk = true → waitOk = false →
      buildTail pdebuildOk waitOk getFilesOk dumpOk skip =
        ([.setPdebuild, .waitBusy], false, some 167)) ∧
    (pdebuildOk = true → waitOk = true → getFilesOk = false →
      buildTail pdebuildOk waitOk getFilesOk dumpOk skip =
        ([.setPdebuild, .waitBusy, .getFiles, .dumpFile], !dumpOk,
         some (if skip then 168 else 169))) := by
  constructor
  · intro hp hw
    subst hp; subst hw
    rfl
  · intro hp hw hg
    subst hp; subst hw; subst hg
    rfl

/-- C4 amended, witnessed at a concrete input: a get-files failure with a
failing `dump_file` still exits 169, with the log fetch attempted and the
dump failure reported. -/
theorem build_log_fetch_witness :
    buildTail true true false false false =
      ([.setPdebuild, .waitBusy, .getFiles, .dumpFile], true, some 169) :=
  (build_log_fetch_on_get_files_failure true true false false false).2 rfl rfl rfl

/-- The transport retry loop only attempts connections and sleeps; it
performs no version check and no login. -/
theorem connectGo_events (attempts : List Bool) (cur retries : Nat) :
    ∀ e ∈ (connectGo attempts cur retries).1, e = ConnEvent.attempt ∨ e = ConnEvent.sleep1 := by
  induction attempts generalizing cur with
  | nil => simp [connectGo]
  | cons a rest ih =>
      cases a with
      | true => simp [connectGo]
      | false =>
          rw [connectGo]
          split
          · simp
          · intro e he
            simp only [List.mem_cons] at he
            rcases he with rfl | rfl | he
            · exact Or.inl rfl
            · exact Or.inr rfl
            · exact ih (cur + 1) e he

/-- C5: when the transport loop obtains a connection and the remote
version differs from the local one, `connect` raises the version
mismatch directly after the `get_version` call: no `login` is ever
issued, the trace ends at the version check (so the mismatch is not
retried, whatever the remaining budget), and exactly one version fetch
happens. -/
theorem connect_version_mismatch (attempts : List Bool) (retries : Nat)
    (clientV serverV : String)
    (hs : (connectGo attempts 0 retries).2 = .success) (hv : clientV ≠ serverV) :
    (connect attempts retries clientV serverV).2 = .versionMismatch ∧
    ConnEvent.login ∉ (connect attempts retries clientV serverV).1 ∧
    (connect attempts retries clientV serverV).1.getLast? = some .getVersion ∧
    (connect attempts retries clientV serverV).1.count .getVersion = 1 := by
  rcases hgo : connectGo attempts 0 retries with ⟨e, t⟩
  rw [hgo] at hs
  simp only at hs
  subst hs
  have hev : ∀ x ∈ e, x = ConnEvent.attempt ∨ x = ConnEvent.sleep1 := by
    intro x hx
    exact connectGo_events attempts 0 retries x (by rw [hgo]; exact hx)
  simp only [connect, hgo, if_pos hv]
  refine ⟨by trivial, ?_, List.getLast?_concat _, ?_⟩
  · intro hmem
    rcases List.mem_append.1 hmem with h1 | h1
    · rcases hev _ h1 with h | h <;> exact ConnEvent.noConfusion h
    · simp at h1
  · rw [List.count_append]
    have he0 : e.count ConnEvent.getVersion = 0 := by
      rw [List.count_eq_zero]
      intro hmem
      rcases hev _ hmem with h | h <;> exact ConnEvent.noConfusion h
    simp [he0]

/-- C5 witness: one failed attempt, then a successful connection with a
remote version different from the local one. -/
theorem connect_version_mismatch_witness :
    (connectGo [false, true] 0 1).2 = .success ∧ ("0.1" : String) ≠ "0.2" ∧
    ((connect [false, true] 1 "0.1" "0.2").2 = .versionMismatch ∧
     ConnEvent.login ∉ (connect [false, true] 1 "0.1" "0.2").1 ∧
     (connect [false, true] 1 "0.1" "0.2").1.getLast? = some .getVersion ∧
     (connect [false, true] 1 "0.1" "0.2").1.count .getVersion = 1) :=
  ⟨by decide, by decide,
   connect_version_mismatch [false, true] 1 "0.1" "0.2" (by decide) (by decide)⟩

/-- The poll loop never performs the authoritative `get_project` call
itself. -/
theorem waitBusyGo_no_getProject (polls : List BusyPoll) :
    BusyEvent.getProject ∉ (waitBusyGo polls).1 := by
  induction polls with
  | nil => simp [waitBusyGo]
  | cons p rest ih =>
      cases p with
      | sockErr =>
          rw [waitBusyGo]
          simp only [List.mem_cons]
          rintro (h | h | h)
          · exact BusyEvent.noConfusion h
          · exact BusyEvent.noConfusion h
          · exact ih h
      | msg s =>
          rw [waitBusyGo]
          split
          · simp only [List.mem_cons]
            rintro (h | h | h)
            · exact BusyEvent.noConfusion h
            · exact BusyEvent.noConfusion h
            · exact ih h
          · split
            · simp
            · simp only [List.mem_cons]
              rintro (h | h | h)
              · exact BusyEvent.noConfusion h
              · exact BusyEvent.noConfusion h
              · exact ih h

/-- C6: when the busy stream terminates cleanly on the sentinel,
`wait_busy` performs exactly one authoritative `get_project` status check
and succeeds if and only if the final status is `build_done`; any other
status raises `CliError(191, ...)` even though the stream ended
normally. -/
theorem wait_busy_final_status (polls : List BusyPoll) (st : String)
    (h : (waitBusyGo polls).2.2 = true) :
    ((wait_busy polls st).2.2 = .ok ↔ st = "build_done") ∧
    ((wait_busy polls st).2.2 = .cliError 191 ↔ st ≠ "build_done") ∧
    (wait_busy polls st).1.count .getProject = 1 := by
  have hcnt : (waitBusyGo polls).1.count BusyEvent.getProject = 0 :=
    List.count_eq_zero.2 (waitBusyGo_no_getProject polls)
  by_cases hst : st = "build_done" <;>
    simp [wait_busy, h, hst, List.count_append, hcnt]

/-- C6 witness: a stream ending directly on the sentinel with a failed
final status. -/
theorem wait_busy_final_status_witness :
    (waitBusyGo [BusyPoll.msg "ELBE-FINISH"]).2.2 = true ∧
    (((wait_busy [BusyPoll.msg "ELBE-FINISH"] "build_failed").2.2 = .ok ↔
        ("build_failed" : String) = "build_done") ∧
     ((wait_busy [BusyPoll.msg "ELBE-FINISH"] "build_failed").2.2 = .cliError 191 ↔
        ("build_failed" : String) ≠ "build_done") ∧
     (wait_busy [BusyPoll.msg "ELBE-FINISH"] "build_failed").1.count .getProject = 1) :=
  ⟨by decide, wait_busy_final_status [BusyPoll.msg "ELBE-FINISH"] "build_failed" (by decide)⟩

theorem waitBusyGo_yield_chars (polls : List BusyPoll) :
    ∀ s ∈ (waitBusyGo polls).2.1, s ≠ "" ∧ s ≠ "ELBE-FINISH" := by
  induction polls with
  | nil => simp [waitBusyGo]
  | cons p rest ih =>
      cases p with
      | sockErr => simpa [waitBusyGo] using ih
      | msg s =>
          rw [waitBusyGo]
          split
          · simpa using ih
          · split
            · simp
            · next h1 h2 =>
                intro x hx
                simp only [List.mem_cons] at hx
                rcases hx with rfl | hx
                · exact ⟨h1, h2⟩
                · exact ih x hx

theorem waitBusyGo_yield_eq (polls : List BusyPoll) :
    (waitBusyGo polls).2.1 = (beforeSentinel polls).filterMap pollData := by
  induction polls with
  | nil => simp [waitBusyGo, beforeSentinel]
  | cons p rest ih =>
      cases p with
      | sockErr =>
          rw [waitBusyGo, beforeSentinel,
              if_neg (fun h => BusyPoll.noConfusion h)]
          simpa [pollData] using ih
      | msg s =>
          rw [waitBusyGo]
          split
          · next h1 =>
              subst h1
              rw [beforeSentinel, if_neg (by simp)]
              simpa [pollData] using ih
          · split
            · next h1 h2 =>
                subst h2
                rw [beforeSentinel, if_pos rfl]
                simp
            · next h1 h2 =>
                rw [beforeSentinel, if_neg (by simp [h2])]
                simpa [pollData, h1] using ih

theorem waitBusyGo_sleep_count (polls : List BusyPoll) :
    (waitBusyGo polls).1.count (BusyEvent.sleepMs 100) =
      (beforeSentinel polls).count (BusyPoll.msg "") := by
  induction polls with
  | nil => simp [waitBusyGo, beforeSentinel]
  | cons p rest ih =>
      cases p with
      | sockErr =>
          rw [waitBusyGo, beforeSentinel,
              if_neg (fun h => BusyPoll.noConfusion h)]
          simpa [List.count_cons] using ih
      | msg s =>
          rw [waitBusyGo]
          split
          · next h1 =>
              subst h1
              rw [beforeSentinel, if_neg (by simp)]
              simpa [List.count_cons] using ih
          · split
            · next h1 h2 =>
                subst h2
                rw [beforeSentinel, if_pos rfl]
                simp [List.count_cons]
            · next h1 h2 =>
                rw [beforeSentinel, if_neg (by simp [h2])]
                simpa [List.count_cons, h1] using ih

theorem waitBusyGo_logRetry_count (polls : List BusyPoll) :
    (waitBusyGo polls).1.count BusyEvent.logRetry =
      (beforeSentinel polls).count BusyPoll.sockErr := by
  induction polls with
  | nil => simp [waitBusyGo, beforeSentinel]
  | cons p rest ih =>
      cases p with
      | sockErr =>
          rw [waitBusyGo, beforeSentinel,
              if_neg (fun h => BusyPoll.noConfusion h)]
          simpa [List.count_cons] using ih
      | msg s =>
          rw [waitBusyGo]
          split
          · next h1 =>
              subst h1
              rw [beforeSentinel, if_neg (by simp)]
              simpa [List.count_cons] using ih
          · split
            · next h1 h2 =>
                subst h2
                rw [beforeSentinel, if_pos rfl]
                simp [List.count_cons]
            · next h1 h2 =>
                rw [beforeSentinel, if_neg (by simp [h2])]
                simpa [List.count_cons, h1] using ih

/-- C7: the busy stream never yields the empty message or the sentinel:
its yields are exactly the non-empty messages polled before the first
sentinel (so after the sentinel nothing further is yielded), each empty
poll result contributes one 100 ms sleep followed by another poll instead
of a yield, and each socket error contributes one log-and-retry; the full
`wait_busy` operation yields the same messages. -/
theorem wait_busy_stream_invariant (polls : List BusyPoll) :
    (∀ s ∈ (waitBusyGo polls).2.1, s ≠ "" ∧ s ≠ "ELBE-FINISH") ∧
    (waitBusyGo polls).2.1 = (beforeSentinel polls).filterMap pollData ∧
    (waitBusyGo polls).1.count (BusyEvent.sleepMs 100) =
      (beforeSentinel polls).count (BusyPoll.msg "") ∧
    (waitBusyGo polls).1.count BusyEvent.logRetry =
      (beforeSentinel polls).count BusyPoll.sockErr ∧
    (∀ st, (wait_busy polls st).2.1 = (waitBusyGo polls).2.1) := by
  refine ⟨waitBusyGo_yield_chars polls, waitBusyGo_yield_eq polls,
         waitBusyGo_sleep_count polls, waitBusyGo_logRetry_count polls, ?_⟩
  intro st
  by_cases hf : (waitBusyGo polls).2.2 = true
  · by_cases hst : st = "build_done" <;> simp [wait_busy, hf, hst]
  · simp [wait_busy, hf]

theorem getLast_opt_cons {α : Type} (a : α) {l : List α} (h : l ≠ []) :
    (a :: l).getLast? = l.getLast? := by
  cases l with
  | nil => exact absurd rfl h
  | cons b t => exact List.getLast?_cons_cons

/-- The index sent for a block is the reserved marker `-1` exactly when
the block is empty (provided the granted index itself is not `-1`, which
the loop guarantees by aborting on a `-1` reply). -/
theorem xmlSent_eq_neg_one {content : List Nat} {pos : Nat} {part : Int} (hp : part ≠ -1) :
    xmlSent content pos part = -1 ↔ xmlBlock content pos = [] := by
  unfold xmlSent
  split_ifs with h
  · simp [(b2a_base64_length_one _).1 h]
  · have hne : xmlBlock content pos ≠ [] := fun he => h ((b2a_base64_length_one _).2 he)
    simp [hp, hne]

theorem setXmlGo_fst_ne_nil (content : List Nat) (replies : List Int) (pos : Nat) (part : Int) :
    (setXmlGo content replies pos part).1 ≠ [] := by
  cases replies with
  | nil => simp [setXmlGo]
  | cons r rest =>
      rw [setXmlGo]
      split_ifs <;> simp

theorem setXmlGo_head (content : List Nat) (replies : List Int) (pos : Nat) (part : Int) :
    ∀ st ∈ (setXmlGo content replies pos part).1.head?,
      st.sent = xmlSent content pos part ∧ st.block = xmlBlock content pos := by
  cases replies with
  | nil => simp [setXmlGo]
  | cons r rest =>
      rw [setXmlGo]
      split_ifs <;> simp

theorem setXmlGo_sent_iff (content : List Nat) (replies : List Int) :
    ∀ (pos : Nat) (part : Int), part ≠ -1 →
      ∀ st ∈ (setXmlGo content replies pos part).1, (st.sent = -1 ↔ st.block = []) := by
  induction replies with
  | nil =>
      intro pos part hp st hst
      simp [setXmlGo] at hst
      subst hst
      exact xmlSent_eq_neg_one hp
  | cons r rest ih =>
      intro pos part hp st hst
      by_cases h1 : r = -1
      · simp [setXmlGo, if_pos h1] at hst
        subst hst
        exact xmlSent_eq_neg_one hp
      · by_cases h2 : r = -2
        · simp [setXmlGo, if_neg h1, if_pos h2] at hst
          subst hst
          exact xmlSent_eq_neg_one hp
        · simp only [setXmlGo, if_neg h1, if_neg h2, List.mem_cons] at hst
          rcases hst with rfl | hst
          · exact xmlSent_eq_neg_one hp
          · exact ih (pos + size) r h1 st hst

theorem setXmlGo_chain (content : List Nat) (replies : List Int) :
    ∀ (pos : Nat) (part : Int),
      List.Chain' (fun a b => a.reply = some b.sent ∨ (b.sent = -1 ∧ b.block = []))
        (setXmlGo content replies pos part).1 := by
  induction replies with
  | nil => intro pos part; simp [setXmlGo]
  | cons r rest ih =>
      intro pos part
      by_cases h1 : r = -1
      · simp [setXmlGo, if_pos h1]
      · by_cases h2 : r = -2
        · simp [setXmlGo, if_neg h1, if_pos h2]
        · simp only [setXmlGo, if_neg h1, if_neg h2]
          refine List.chain'_cons'.2 ⟨?_, ih (pos + size) r⟩
          intro y hy
          rcases setXmlGo_head content rest (pos + size) r y hy with ⟨hs, hb⟩
          by_cases hblk : xmlBlock content (pos + size) = []
          · exact Or.inr ⟨hs.trans ((xmlSent_eq_neg_one h1).2 hblk), hb.trans hblk⟩
          · left
            have hsr : xmlSent content (pos + size) r = r := by
              unfold xmlSent
              exact if_neg (fun h => hblk ((b2a_base64_length_one _).1 h))
            simp [hs, hsr]

theorem setXmlGo_dropLast (content : List Nat) (replies : List Int) :
    ∀ (pos : Nat) (part : Int),
      ∀ st ∈ (setXmlGo content replies pos part).1.dropLast,
        ∃ r, st.reply = some r ∧ r ≠ -1 ∧ r ≠ -2 := by
  induction replies with
  | nil => intro pos part st hst; simp [setXmlGo] at hst
  | cons r rest ih =>
      intro pos part st hst
      by_cases h1 : r = -1
      · simp [setXmlGo, if_pos h1] at hst
      · by_cases h2 : r = -2
        · simp [setXmlGo, if_neg h1, if_pos h2] at hst
        · simp only [setXmlGo, if_neg h1, if_neg h2] at hst
          rw [List.dropLast_cons_of_ne_nil (setXmlGo_fst_ne_nil content rest (pos + size) r)]
            at hst
          simp only [List.mem_cons] at hst
          rcases hst with rfl | hst
          · exact ⟨r, rfl, h1, h2⟩
          · exact ih (pos + size) r st hst

theorem setXmlGo_outcome_busy (content : List Nat) (replies : List Int) :
    ∀ (pos : Nat) (part : Int),
      ((setXmlGo content replies pos part).2 = .busyReject ↔
        ∃ st, (setXmlGo content replies pos part).1.getLast? = some st ∧
          st.reply = some (-1)) := by
  induction replies with
  | nil => intro pos part; simp [setXmlGo]
  | cons r rest ih =>
      intro pos part
      by_cases h1 : r = -1
      · simp [setXmlGo, if_pos h1, h1]
      · by_cases h2 : r = -2
        · subst h2
          norm_num [setXmlGo, if_neg h1]
          exact fun h => XmlOutcome.noConfusion h
        · simp only [setXmlGo, if_neg h1, if_neg h2]
          rw [getLast_opt_cons _ (setXmlGo_fst_ne_nil content rest (pos + size) r)]
          exact ih (pos + size) r

theorem setXmlGo_outcome_done (content : List Nat) (replies : List Int) :
    ∀ (pos : Nat) (part : Int),
      ((setXmlGo content replies pos part).2 = .done ↔
        ∃ st, (setXmlGo content replies pos part).1.getLast? = some st ∧
          st.reply = some (-2)) := by
  induction replies with
  | nil => intro pos part; simp [setXmlGo]
  | cons r rest ih =>
      intro pos part
      by_cases h1 : r = -1
      · subst h1
        norm_num [setXmlGo]
        exact fun h => XmlOutcome.noConfusion h
      · by_cases h2 : r = -2
        · simp [setXmlGo, if_neg h1, if_pos h2, h2]
        · simp only [setXmlGo, if_neg h1, if_neg h2]
          rw [getLast_opt_cons _ (setXmlGo_fst_ne_nil content rest (pos + size) r)]
          exact ih (pos + size) r

/-- C1: in the acknowledged `set_xml` upload the first request for a
non-empty document carries index 0; along the whole request trace each
later request either echoes exactly the index the server granted in the
previous reply or is the reserved final marker, and a request carries the
marker `-1` exactly when its block is empty; every non-final request was
answered with a granted index (neither `-1` nor `-2`), a `-1` ("reject")
reply occurs only as the very last step and makes the run abort with the
fatal `RuntimeError`, and a `-2` ("complete") reply occurs only as the
very last step and ends the loop normally. -/
theorem set_xml_ack_protocol (content : List Nat) (replies : List Int)
    (hc : content ≠ []) :
    (∀ st ∈ (set_xml true content replies).1.head?, st.sent = 0) ∧
    List.Chain' (fun a b => a.reply = some b.sent ∨ (b.sent = -1 ∧ b.block = []))
      (set_xml true content replies).1 ∧
    (∀ st ∈ (set_xml true content replies).1, (st.sent = -1 ↔ st.block = [])) ∧
    (∀ st ∈ (set_xml true content replies).1.dropLast,
      ∃ r, st.reply = some r ∧ r ≠ -1 ∧ r ≠ -2) ∧
    ((set_xml true content replies).2 = .busyReject ↔
      ∃ st, (set_xml true content replies).1.getLast? = some st ∧ st.reply = some (-1)) ∧
    ((set_xml true content replies).2 = .done ↔
      ∃ st, (set_xml true content replies).1.getLast? = some st ∧ st.reply = some (-2)) := by
  have hxml : set_xml true content replies = setXmlGo content replies 0 0 := by
    simp [set_xml]
  rw [hxml]
  refine ⟨?_, setXmlGo_chain content replies 0 0,
         setXmlGo_sent_iff content replies 0 0 (by decide),
         setXmlGo_dropLast content replies 0 0,
         setXmlGo_outcome_busy content replies 0 0,
         setXmlGo_outcome_done content replies 0 0⟩
  intro st hst
  rcases setXmlGo_head content replies 0 0 st hst with ⟨hs, _⟩
  have hb0 : xmlBlock content 0 ≠ [] := by
    simp [xmlBlock, List.take_eq_nil_iff, hc, size]
  rw [hs]
  unfold xmlSent
  exact if_neg (fun h => hb0 ((b2a_base64_length_one _).1 h))

/-- C1 witness: a one-byte document against a server that grants index 5
and then completes. -/
theorem set_xml_ack_protocol_witness :
    ([1] : List Nat) ≠ [] ∧
    ((∀ st ∈ (set_xml true [1] [5, -2]).1.head?, st.sent = 0) ∧
     List.Chain' (fun a b => a.reply = some b.sent ∨ (b.sent = -1 ∧ b.block = []))
       (set_xml true [1] [5, -2]).1 ∧
     (∀ st ∈ (set_xml true [1] [5, -2]).1, (st.sent = -1 ↔ st.block = [])) ∧
     (∀ st ∈ (set_xml true [1] [5, -2]).1.dropLast,
       ∃ r, st.reply = some r ∧ r ≠ -1 ∧ r ≠ -2) ∧
     ((set_xml true [1] [5, -2]).2 = .busyReject ↔
       ∃ st, (set_xml true [1] [5, -2]).1.getLast? = some st ∧ st.reply = some (-1)) ∧
     ((set_xml true [1] [5, -2]).2 = .done ↔
       ∃ st, (set_xml true [1] [5, -2]).1.getLast? = some st ∧ st.reply = some (-2))) :=
  ⟨by decide, set_xml_ack_protocol [1] [5, -2] (by decide)⟩

/-- Invariant of the `download_file` loop: requested indices are the
consecutive run starting at `part` (one per consumed reply — a failed
index is never re-requested), at most `retry` transport errors are
consumed, the run exits with status 170 exactly when it consumes `retry`
errors (closing the file first), and it dies with the `NameError` of the
unassigned `ret` exactly when the very first reply is a transport
error. -/
theorem downloadGo_invariant (resps : List GetFileResp) :
    ∀ (part retry : Nat) (ret : Option (List Char)), 1 ≤ retry →
      (∀ s, ret = some s → s ≠ eofStr) →
      ((downloadGo resps part retry ret).requests =
        List.range' part (downloadGo resps part retry ret).requests.length ∧
       (downloadGo resps part retry ret).errorsSeen ≤ retry ∧
       ((downloadGo resps part retry ret).outcome = .exit170 ↔
         (downloadGo resps part retry ret).errorsSeen = retry) ∧
       ((downloadGo resps part retry ret).outcome = .exit170 →
         (downloadGo resps part retry ret).closed = true) ∧
       ((downloadGo resps part retry ret).outcome = .nameError ↔
         (resps.head? = some .badStatusLine ∧ ret = none ∧ 2 ≤ retry))) := by
  induction resps with
  | nil =>
      intro part retry ret h1 _
      refine ⟨by simp [downloadGo], by simp [downloadGo], ?_, ?_, ?_⟩
      · simp only [downloadGo]
        constructor
        · intro h; exact absurd h (by simp)
        · intro h; omega
      · simp [downloadGo]
      · simp [downloadGo]
  | cons resp rest ih =>
      intro part retry ret h1 h2
      cases resp with
      | ok s =>
          by_cases hs : s = eofStr
          · refine ⟨by simp [downloadGo, hs], by simp [downloadGo, hs], ?_, ?_, ?_⟩
            · simp only [downloadGo, if_pos hs]
              constructor
              · intro h; exact absurd h (by simp)
              · intro h; omega
            · simp [downloadGo, hs]
            · simp [downloadGo, hs]
          · have ihn := ih (part + 1) retry (some s) h1
              (fun t ht => by simp at ht; subst ht; exact hs)
            obtain ⟨ir, ie, ix, ic, inn⟩ := ihn
            simp only [downloadGo, if_neg hs]
            refine ⟨?_, by simpa using ie, by simpa using ix, by simpa using ic, ?_⟩
            · simp only [List.length_cons]
              exact (congrArg (List.cons part) ir).trans (List.range'_succ _ _ _).symm
            · constructor
              · intro h
                rcases inn.1 h with ⟨-, hcontra, -⟩
                exact absurd hcontra (by simp)
              · rintro ⟨hcontra, -, -⟩
                simp at hcontra
      | badStatusLine =>
          by_cases hr : retry - 1 = 0
          · have hretry : retry = 1 := by omega
            subst hretry
            refine ⟨by simp [downloadGo, hr], by simp [downloadGo, hr], ?_, ?_, ?_⟩
            · simp [downloadGo, hr]
            · simp [downloadGo, hr]
            · simp only [downloadGo, hr, if_pos rfl]
              constructor
              · intro h; exact absurd h (by simp)
              · intro h; omega
          · cases ret with
            | none =>
                refine ⟨by simp [downloadGo, hr], ?_, ?_, ?_, ?_⟩
                · simp only [downloadGo, if_neg hr]
                  omega
                · simp only [downloadGo, if_neg hr]
                  constructor
                  · intro h; exact absurd h (by simp)
                  · intro h; omega
                · simp only [downloadGo, if_neg hr]
                  intro h; exact absurd h (by simp)
                · simp only [downloadGo, if_neg hr]
                  simp
                  omega
            | some s =>
                have hse : s ≠ eofStr := h2 s rfl
                have h1' : 1 ≤ retry - 1 := by omega
                have ihn := ih (part + 1) (retry - 1) (some s) h1'
                  (fun t ht => by simp at ht; subst ht; exact hse)
                obtain ⟨ir, ie, ix, ic, inn⟩ := ihn
                simp only [downloadGo, if_neg hr, if_neg hse]
                refine ⟨?_, by omega, ?_, by simpa using ic, ?_⟩
                · simp only [List.length_cons]
                  exact (congrArg (List.cons part) ir).trans (List.range'_succ _ _ _).symm
                · constructor
                  · intro h; have := ix.1 h; omega
                  · intro h; exact ix.2 (by omega)
                · constructor
                  · intro h
                    rcases inn.1 h with ⟨-, hcontra, -⟩
                    exact Option.noConfusion hcontra
                  · rintro ⟨-, hcontra, -⟩
                    exact Option.noConfusion hcontra

/-- C2 counterexample: a transport error on the very first chunk request
is not retried at all — the loop falls through to the unassigned `ret`
and dies with a `NameError` after a single request; and after a
successful first chunk, an error on chunk 1 makes the loop re-write chunk
0 and move on to request index 2, so the failed index 1 is requested only
once (never re-requested) and the previous chunk is written twice. -/
theorem download_retry_counterexample :
    (download_file [.badStatusLine, .ok eofStr]).outcome = .nameError ∧
    (download_file [.badStatusLine, .ok eofStr]).requests = [0] ∧
    (download_file [.ok (b2a_base64 [65]), .badStatusLine, .ok eofStr]).requests = [0, 1, 2] ∧
    (download_file [.ok (b2a_base64 [65]), .badStatusLine, .ok eofStr]).written =
      [[65], [65]] := by
  decide

/-- C2 amended: `download_file` keeps a single budget of 5 transport
errors for the whole download, never resetting it per chunk; the
requested indices always form the consecutive run 0, 1, 2, ... (a failed
chunk is never re-requested: on an error with budget remaining the loop
re-writes the previously received chunk and advances, and if the very
first reply is an error it dies with a `NameError`); consuming the fifth
error closes the partially written file and exits fatally with status
170. -/
theorem download_error_handling (resps : List GetFileResp) :
    (download_file resps).requests =
      List.range' 0 (download_file resps).requests.length ∧
    (download_file resps).errorsSeen ≤ 5 ∧
    ((download_file resps).outcome = .exit170 ↔ (download_file resps).errorsSeen = 5) ∧
    ((download_file resps).outcome = .exit170 → (download_file resps).closed = true) ∧
    ((download_file resps).outcome = .nameError ↔
      resps.head? = some .badStatusLine) := by
  have h := downloadGo_invariant resps 0 5 none (by omega) (fun s hs => Option.noConfusion hs)
  obtain ⟨ir, ie, ix, ic, inn⟩ := h
  exact ⟨ir, ie, ix, ic, by simpa using inn⟩

/-- C2 amended, exercised at a concrete input: five consecutive errors
after one good chunk exhaust the budget and exit 170 with the file
closed. -/
theorem download_error_handling_witness :
    ((download_file [.ok (b2a_base64 [65]), .badStatusLine, .badStatusLine, .badStatusLine,
        .badStatusLine, .badStatusLine]).outcome = .exit170 ↔
      (download_file [.ok (b2a_base64 [65]), .badStatusLine, .badStatusLine, .badStatusLine,
        .badStatusLine, .badStatusLine]).errorsSeen = 5) ∧
    ((download_file [.ok (b2a_base64 [65]), .badStatusLine, .badStatusLine, .badStatusLine,
        .badStatusLine, .badStatusLine]).outcome = .exit170 →
      (download_file [.ok (b2a_base64 [65]), .badStatusLine, .badStatusLine, .badStatusLine,
        .badStatusLine, .badStatusLine]).closed = true) :=
  ⟨(download_error_handling [.ok (b2a_base64 [65]), .badStatusLine, .badStatusLine,
      .badStatusLine, .badStatusLine, .badStatusLine]).2.2.1,
   (download_error_handling [.ok (b2a_base64 [65]), .badStatusLine, .badStatusLine,
      .badStatusLine, .badStatusLine, .badStatusLine]).2.2.2.1⟩

theorem uploadGo_length :
    ∀ (fuel : Nat) (c : List Nat), c.length ≤ fuel →
      (uploadGo fuel c).length = c.length / size + 1 := by
  intro fuel
  induction fuel with
  | zero =>
      intro c hc
      have hc0 : c.length = 0 := by omega
      simp [uploadGo, hc0]
  | succ fuel ih =>
      intro c hc
      rw [uploadGo]
      split_ifs with h
      · simp [Nat.div_eq_of_lt h]
      · push_neg at h
        have hdrop : (c.drop size).length ≤ fuel := by
          simp only [List.length_drop, show size = 1048576 from rfl] at *
          omega
        rw [List.length_cons, ih _ hdrop, List.length_drop]
        simp only [show size = 1048576 from rfl] at *
        omega

theorem uploadGo_flatten :
    ∀ (fuel : Nat) (c : List Nat), c.length ≤ fuel → (uploadGo fuel c).flatten = c := by
  intro fuel
  induction fuel with
  | zero => intro c _; simp [uploadGo]
  | succ fuel ih =>
      intro c hc
      rw [uploadGo]
      split_ifs with h
      · simp
      · push_neg at h
        have hdrop : (c.drop size).length ≤ fuel := by
          simp only [List.length_drop, show size = 1048576 from rfl] at *
          omega
        simp [ih _ hdrop]

theorem uploadGo_ne_nil (fuel : Nat) (c : List Nat) : uploadGo fuel c ≠ [] := by
  cases fuel with
  | zero => simp [uploadGo]
  | succ fuel =>
      rw [uploadGo]
      split_ifs <;> simp

theorem uploadGo_getLast_length :
    ∀ (fuel : Nat) (c : List Nat), c.length ≤ fuel →
      (uploadGo fuel c).getLast?.map List.length = some (c.length % size) := by
  intro fuel
  induction fuel with
  | zero =>
      intro c hc
      have hc0 : c.length = 0 := by omega
      simp [uploadGo, hc0]
  | succ fuel ih =>
      intro c hc
      rw [uploadGo]
      split_ifs with h
      · simp [Nat.mod_eq_of_lt h]
      · push_neg at h
        have hdrop : (c.drop size).length ≤ fuel := by
          simp only [List.length_drop, show size = 1048576 from rfl] at *
          omega
        rw [getLast_opt_cons _ (uploadGo_ne_nil fuel (c.drop size)), ih _ hdrop,
            List.length_drop]
        have hmod : (c.length - size) % size = c.length % size := by
          simp only [show size = 1048576 from rfl] at *
          omega
        rw [hmod]

theorem uploadGo_mem_subset :
    ∀ (fuel : Nat) (c : List Nat), ∀ b ∈ uploadGo fuel c, ∀ x ∈ b, x ∈ c := by
  intro fuel
  induction fuel with
  | zero =>
      intro c b hb x hx
      simp [uploadGo] at hb
      exact hb ▸ hx
  | succ fuel ih =>
      intro c b hb x hx
      rw [uploadGo] at hb
      split_ifs at hb with h
      · simp at hb
        exact hb ▸ hx
      · simp only [List.mem_cons] at hb
        rcases hb with rfl | hb
        · exact List.take_subset _ _ hx
        · exact List.drop_subset _ _ (ih _ b hb x hx)

theorem chunksGo_length :
    ∀ (fuel : Nat) (c : List Nat), c.length ≤ fuel →
      (chunksGo fuel c).length = (c.length + size - 1) / size := by
  intro fuel
  induction fuel with
  | zero =>
      intro c hc
      have hc0 : c.length = 0 := by omega
      simp only [chunksGo, List.length_nil, hc0, show size = 1048576 from rfl]
  | succ fuel ih =>
      intro c hc
      rw [chunksGo]
      split_ifs with h
      · subst h
        simp only [List.length_nil, List.length, show size = 1048576 from rfl]
      · have hne : c.length ≠ 0 := by simpa [List.length_eq_zero] using h
        have hdrop : (c.drop size).length ≤ fuel := by
          simp only [List.length_drop, show size = 1048576 from rfl] at *
          omega
        rw [List.length_cons, ih _ hdrop, List.length_drop]
        simp only [show size = 1048576 from rfl] at *
        omega

theorem chunksGo_flatten :
    ∀ (fuel : Nat) (c : List Nat), c.length ≤ fuel → (chunksGo fuel c).flatten = c := by
  intro fuel
  induction fuel with
  | zero =>
      intro c hc
      have hc0 : c = [] := List.length_eq_zero.1 (by omega)
      simp [chunksGo, hc0]
  | succ fuel ih =>
      intro c hc
      rw [chunksGo]
      split_ifs with h
      · simp [h]
      · have hdrop : (c.drop size).length ≤ fuel := by
          have hne : c.length ≠ 0 := by simpa [List.length_eq_zero] using h
          simp only [List.length_drop, show size = 1048576 from rfl] at *
          omega
        simp [ih _ hdrop]

theorem chunksGo_mem_subset :
    ∀ (fuel : Nat) (c : List Nat), ∀ b ∈ chunksGo fuel c, ∀ x ∈ b, x ∈ c := by
  intro fuel
  induction fuel with
  | zero => intro c b hb; simp [chunksGo] at hb
  | succ fuel ih =>
      intro c b hb x hx
      rw [chunksGo] at hb
      split_ifs at hb with h
      · simp at hb
      · simp only [List.mem_cons] at hb
        rcases hb with rfl | hb
        · exact List.take_subset _ _ hx
        · exact List.drop_subset _ _ (ih _ b hb x hx)

/-- A run of `download_file` against replies consisting of the encoded
chunks of a stored file followed by `EndOfFile` requests exactly the
consecutive indices, decodes every chunk in order and finishes
normally. -/
theorem downloadGo_ok_run :
    ∀ (chunks : List (List Nat)) (part retry : Nat) (ret : Option (List Char)),
      downloadGo ((chunks.map (fun b => GetFileResp.ok (b2a_base64 b))) ++ [.ok eofStr])
          part retry ret =
        ⟨List.range' part (chunks.length + 1),
         chunks.map (fun b => a2b_base64 (b2a_base64 b)), 0, true, .done⟩ := by
  intro chunks
  induction chunks with
  | nil => intro part retry ret; simp [downloadGo]
  | cons b bs ih =>
      intro part retry ret
      have hne := b2a_base64_ne_eofStr b
      simp only [List.map_cons, List.cons_append, List.append_eq, downloadGo, if_neg hne]
      rw [ih (part + 1) retry (some (b2a_base64 b))]
      simp [List.range'_succ]

/-- C8: for an `n`-byte file the upload primitive appends exactly
`n / 2^20 + 1` blocks — the final block, of length `n mod 2^20` (possibly
zero), is still appended and no byte is lost — between one start and
exactly one final finish call; downloading the same content back requests
exactly the ascending chunk indices `0, 1, ...`, one per stored 1 MiB
chunk plus one final request answered `EndOfFile`; in particular a
2.5 MiB file yields 3 appends and 4 get-chunk requests. -/
theorem upload_download_call_counts (content : List Nat) :
    (uploadBlocks content).length = content.length / size + 1 ∧
    (setOrigTrace content).countP
      (fun e => match e with | .append _ => true | _ => false) =
      content.length / size + 1 ∧
    (setOrigTrace content).count .finish = 1 ∧
    (setOrigTrace content).head? = some .start ∧
    (setOrigTrace content).getLast? = some .finish ∧
    (uploadBlocks content).getLast?.map List.length = some (content.length % size) ∧
    (uploadBlocks content).flatten = content ∧
    (download_file (serverResps content)).requests =
      List.range ((content.length + size - 1) / size + 1) ∧
    (uploadBlocks (List.replicate 2621440 0)).length = 3 ∧
    (download_file (serverResps (List.replicate 2621440 0))).requests = List.range 4 := by
  have hlen : ∀ c : List Nat, (uploadBlocks c).length = c.length / size + 1 :=
    fun c => uploadGo_length c.length c le_rfl
  have hreq : ∀ c : List Nat,
      (download_file (serverResps c)).requests =
        List.range ((c.length + size - 1) / size + 1) := by
    intro c
    have hck : (chunksOf c).length = (c.length + size - 1) / size :=
      chunksGo_length c.length c le_rfl
    unfold download_file serverResps
    simp only [downloadGo_ok_run, List.range_eq_range', hck]
  refine ⟨hlen content, ?_, ?_, rfl, ?_, ?_, ?_, hreq content, ?_, ?_⟩
  · rw [← hlen content]
    unfold setOrigTrace
    simp [List.countP_cons, List.countP_append, List.countP_map, Function.comp]
  · have hnomem : UploadEvent.finish ∉
        (uploadBlocks content).map (fun b => UploadEvent.append (b2a_base64 b)) := by
      simp
    unfold setOrigTrace
    simp [List.count_cons, List.count_append, List.count_eq_zero.2 hnomem]
  · have hform : setOrigTrace content =
        (UploadEvent.start ::
          (uploadBlocks content).map (fun b => UploadEvent.append (b2a_base64 b))) ++
          [UploadEvent.finish] := by
      simp [setOrigTrace]
    rw [hform]
    exact List.getLast?_concat _
  · exact uploadGo_getLast_length content.length content le_rfl
  · exact uploadGo_flatten content.length content le_rfl
  · rw [hlen, List.length_replicate]
    norm_num [show size = 1048576 from rfl]
  · rw [hreq, List.length_replicate]
    norm_num [show size = 1048576 from rfl]

/-- C9: uploading any byte string with the 1 MiB block-upload primitive
and downloading it back through the chunked download reproduces exactly
the original bytes (the zero-length case included), the download
finishing normally on `EndOfFile`. -/
theorem upload_download_roundtrip (content : List Nat) (h : ∀ x ∈ content, x < 256) :
    ((download_file (serverResps (serverStored content))).written).flatten = content ∧
    (download_file (serverResps (serverStored content))).outcome = .done := by
  have hstored : serverStored content = content := by
    unfold serverStored
    have hmap : (uploadBlocks content).map (fun b => a2b_base64 (b2a_base64 b)) =
        (uploadBlocks content).map id := by
      apply List.map_congr_left
      intro b hb
      exact a2b_b2a_base64 b (fun x hx => h x (uploadGo_mem_subset content.length content b hb x hx))
    rw [hmap, List.map_id]
    exact uploadGo_flatten content.length content le_rfl
  rw [hstored]
  have hchmap : (chunksOf content).map (fun b => a2b_base64 (b2a_base64 b)) =
      (chunksOf content).map id := by
    apply List.map_congr_left
    intro b hb
    exact a2b_b2a_base64 b (fun x hx => h x (chunksGo_mem_subset content.length content b hb x hx))
  constructor
  · show ((downloadGo ((chunksOf content).map (fun b => GetFileResp.ok (b2a_base64 b)) ++
        [.ok eofStr]) 0 5 none).written).flatten = content
    rw [downloadGo_ok_run]
    show ((chunksOf content).map (fun b => a2b_base64 (b2a_base64 b))).flatten = content
    rw [hchmap, List.map_id]
    exact chunksGo_flatten content.length content le_rfl
  · show (downloadGo ((chunksOf content).map (fun b => GetFileResp.ok (b2a_base64 b)) ++
        [.ok eofStr]) 0 5 none).outcome = .done
    rw [downloadGo_ok_run]

/-- C9 witness: a three-byte file survives the upload/download round
trip. -/
theorem upload_download_roundtrip_witness :
    (∀ x ∈ ([1, 2, 3] : List Nat), x < 256) ∧
    (((download_file (serverResps (serverStored [1, 2, 3]))).written).flatten = [1, 2, 3] ∧
     (download_file (serverResps (serverStored [1, 2, 3]))).outcome = .done) :=
  ⟨by decide, upload_download_roundtrip [1, 2, 3] (by decide)⟩
